import Mathlib

/-
  Verification of the observable project-state store of the drag-and-drop
  demo (src/12-Projects/Drag&Drop/state/project-state.ts and the bundled
  copy in src/unnamed/part_000), together with the form-input validation
  (validate / gatherUserInput in src/unnamed/part_000).

  Two embeddings of the store are used:
  * `DragDrop` is a value-level embedding: the projects array is a list of
    record values, and each notification round is recorded as a list of
    events `(listener, snapshot contents)`.
  * `DragDropHeap` is a reference-level embedding that tracks object
    identity: record objects and array objects live in indexed heaps, the
    store array and the snapshot arrays are heap references, and a
    notification event is `(listener, array reference)`.  This embedding
    makes aliasing observable, which is what the snapshot-independence and
    single-snapshot statements are about.
-/

set_option autoImplicit false

namespace DragDrop

/-- Embedding of `enum ProjectStatus { Active, Finished }` from the source. -/
inductive ProjectStatus where
  | Active
  | Finished
  deriving DecidableEq, Repr

/-- Embedding of `class Project` from the source: constructor fields `id`, `title`,
`description`, `people`, `status`.  The JS number `people` is modelled as a
rational, since nothing in the source constrains it to an integer. -/
structure Project where
  id : String
  title : String
  description : String
  people : ℚ
  status : ProjectStatus
  deriving DecidableEq, Repr

/-- Embedding of `interface UserInput { title; description; people }` from the source. -/
structure UserInput where
  title : String
  description : String
  people : ℚ
  deriving DecidableEq, Repr

/-- Value-level state of the `ProjectState` singleton: the private
`projects` array and the inherited `listeners` array.  Listener callbacks
are modelled as opaque identifiers of type `L`, kept in registration
order. -/
structure ProjectState (L : Type) where
  projects : List Project
  listeners : List L
  deriving DecidableEq, Repr

/-- The state built by the private constructor: both arrays empty. -/
def initialState (L : Type) : ProjectState L := { projects := [], listeners := [] }

/-- Embedding of `updateListeners` from the source: every registered listener, in
registration order, is called with a copy of the current `projects` array.
The returned event list records, per listener, the snapshot contents it
received. -/
def updateListeners {L : Type} (s : ProjectState L) : List (L × List Project) :=
  s.listeners.map (fun fn => (fn, s.projects))

/-- Embedding of `addListener` from `class State<T>`: pushes the callback onto
`listeners`.  It produces no notification, hence `none`. -/
def addListener {L : Type} (s : ProjectState L) (fn : L) :
    ProjectState L × Option (List (L × List Project)) :=
  ({ s with listeners := s.listeners ++ [fn] }, none)

/-- Embedding of `addProject` from the source.  The result of `Math.random().toString()`
is external randomness and is passed in as `id`.  A new record with
`status = Active` is pushed onto `projects`, then `updateListeners` runs
unconditionally, hence the event list is always `some`. -/
def addProject {L : Type} (s : ProjectState L) (id : String) (obj : UserInput) :
    ProjectState L × Option (List (L × List Project)) :=
  let newProject : Project :=
    { id := id, title := obj.title, description := obj.description,
      people := obj.people, status := ProjectStatus.Active }
  let s' : ProjectState L := { s with projects := s.projects ++ [newProject] }
  (s', some (updateListeners s'))

/-- The in-place mutation `currentProject.status = newStatus` performed by
`moveProject`: `find` locates the first record whose `id` matches, and only
that record object is mutated, so at the value level the first match is
replaced and everything else is kept. -/
def setStatusOfFirst : List Project → String → ProjectStatus → List Project
  | [], _, _ => []
  | p :: ps, pid, ns =>
    if p.id == pid then { p with status := ns } :: ps
    else p :: setStatusOfFirst ps pid ns

/-- Embedding of `moveProject` from the source: `find` the first record with the given
`id`; if it exists and its status differs from `newStatus`, mutate its
status in place and run `updateListeners` (event list `some`); otherwise do
nothing (`none`, state unchanged). -/
def moveProject {L : Type} (s : ProjectState L) (projectId : String)
    (newStatus : ProjectStatus) :
    ProjectState L × Option (List (L × List Project)) :=
  match s.projects.find? (fun prj => prj.id == projectId) with
  | some currentProject =>
    if currentProject.status ≠ newStatus then
      let s' : ProjectState L :=
        { s with projects := setStatusOfFirst s.projects projectId newStatus }
      (s', some (updateListeners s'))
    else (s, none)
  | none => (s, none)

/-- A call against the public interface of the store. -/
inductive Op (L : Type) where
  | add (id : String) (obj : UserInput)
  | move (projectId : String) (newStatus : ProjectStatus)
  | listen (fn : L)

/-- One call: the resulting state and the notification round, if any. -/
def step {L : Type} (s : ProjectState L) :
    Op L → ProjectState L × Option (List (L × List Project))
  | .add id obj => addProject s id obj
  | .move pid ns => moveProject s pid ns
  | .listen fn => addListener s fn

/-- Run a sequence of calls, keeping only the final state. -/
def runOps {L : Type} (s : ProjectState L) : List (Op L) → ProjectState L
  | [] => s
  | op :: ops => runOps (step s op).1 ops

/-- Run a sequence of `addProject` calls, each given by the drawn random
id and the user input. -/
def runAdds {L : Type} (s : ProjectState L) :
    List (String × UserInput) → ProjectState L
  | [] => s
  | (i, u) :: rest => runAdds (addProject s i u).1 rest

/-- The record value `addProject` constructs from a drawn id and an input. -/
def mkProject (id : String) (obj : UserInput) : Project :=
  { id := id, title := obj.title, description := obj.description,
    people := obj.people, status := ProjectStatus.Active }

theorem addProject_fst {L : Type} (s : ProjectState L) (id : String) (obj : UserInput) :
    (addProject s id obj).1 =
      { s with projects := s.projects ++ [mkProject id obj] } := rfl

theorem runAdds_projects {L : Type} (inputs : List (String × UserInput))
    (s : ProjectState L) :
    (runAdds s inputs).projects =
      s.projects ++ inputs.map (fun p => mkProject p.1 p.2) := by
  induction inputs generalizing s with
  | nil => simp [runAdds]
  | cons hd tl ih =>
    obtain ⟨i, u⟩ := hd
    simp [runAdds, addProject_fst, ih, List.append_assoc]

theorem mkProject_id (id : String) (obj : UserInput) : (mkProject id obj).id = id := rfl

/-- Claim C1, counterexample: ids are drawn by `Math.random().toString()`,
and nothing in `addProject` prevents the same value from being drawn twice.
After two `addProject` calls whose drawn random values are both `"0.5"`,
the store holds two records (length matches the number of calls) but their
ids coincide, so the stated uniqueness invariant fails. -/
theorem claim_C1_counterexample :
    (runAdds (initialState Nat)
        [("0.5", { title := "t", description := "d", people := 1 }),
         ("0.5", { title := "u", description := "e", people := 2 })]).projects.length = 2 ∧
    ¬ ((runAdds (initialState Nat)
        [("0.5", { title := "t", description := "d", people := 1 }),
         ("0.5", { title := "u", description := "e", people := 2 })]).projects.map
          Project.id).Nodup := by
  decide

/-- Claim C1, amended: for every sequence of `addProject` calls the length
of the internal sequence equals the number of calls, and the ids of the
stored records are exactly the drawn random values, so they are pairwise
distinct whenever the drawn values are pairwise distinct. -/
theorem claim_C1 (L : Type) (inputs : List (String × UserInput)) :
    (runAdds (initialState L) inputs).projects.length = inputs.length ∧
    (runAdds (initialState L) inputs).projects.map Project.id = inputs.map Prod.fst ∧
    ((inputs.map Prod.fst).Nodup →
      ((runAdds (initialState L) inputs).projects.map Project.id).Nodup) := by
  have hp := runAdds_projects inputs (initialState L)
  simp only [initialState, List.nil_append] at hp
  simp only [initialState]
  refine ⟨?_, ?_, ?_⟩
  · simp [hp]
  · simp [hp, mkProject]
  · intro hnd
    simpa [hp, mkProject] using hnd

/-- Claim C1, witness: the amended statement evaluated on two calls with
distinct drawn ids. -/
theorem claim_C1_witness :
    (runAdds (initialState Nat)
        [("0.1", { title := "t", description := "d", people := 1 }),
         ("0.2", { title := "u", description := "e", people := 2 })]).projects.length = 2 ∧
    ((runAdds (initialState Nat)
        [("0.1", { title := "t", description := "d", people := 1 }),
         ("0.2", { title := "u", description := "e", people := 2 })]).projects.map
          Project.id).Nodup := by
  have h := claim_C1 Nat
      [("0.1", { title := "t", description := "d", people := 1 }),
       ("0.2", { title := "u", description := "e", people := 2 })]
  exact ⟨h.1, h.2.2 (by decide)⟩

/-- Claim C4: after `addProject(t, d, p)`, every listener registered at
that time receives a snapshot that extends the previous sequence by one
record (creation order) whose last element carries title `t`, description
`d`, people count `pc` and status `Active`. -/
theorem claim_C4 (L : Type) (s : ProjectState L) (id t d : String) (pc : ℚ) (fn : L)
    (hfn : fn ∈ s.listeners) :
    ∃ evs snap p,
      (addProject s id { title := t, description := d, people := pc }).2 = some evs ∧
      (fn, snap) ∈ evs ∧
      snap = s.projects ++ [p] ∧
      snap.getLast? = some p ∧
      p.title = t ∧ p.description = d ∧ p.people = pc ∧
      p.status = ProjectStatus.Active := by
  refine ⟨updateListeners (addProject s id ⟨t, d, pc⟩).1,
    s.projects ++ [mkProject id ⟨t, d, pc⟩], mkProject id ⟨t, d, pc⟩,
    rfl, ?_, rfl, List.getLast?_concat _, rfl, rfl, rfl, rfl⟩
  exact List.mem_map_of_mem _ hfn

/-- Claim C4, witness: one registered listener observes the appended
record after a concrete `addProject` call. -/
theorem claim_C4_witness :
    ∃ evs snap p,
      (addProject { projects := [], listeners := [0] }
        "0.3" { title := "t", description := "d", people := 2 }).2 = some evs ∧
      ((0 : Nat), snap) ∈ evs ∧
      snap = [] ++ [p] ∧
      snap.getLast? = some p ∧
      p.title = "t" ∧ p.description = "d" ∧ p.people = 2 ∧
      p.status = ProjectStatus.Active :=
  claim_C4 Nat { projects := [], listeners := [0] } "0.3" "t" "d" 2 0 (by decide)

/-- Claim C3: assuming the stored ids are pairwise distinct, `moveProject`
notifies if and only if a record with the given id exists whose status
differs from the target; otherwise the state is untouched and no listener
is invoked; and when it does notify, the events cover exactly the
registered listeners in order. -/
theorem claim_C3 (L : Type) (s : ProjectState L) (pid : String) (ns : ProjectStatus)
    (hnd : (s.projects.map Project.id).Nodup) :
    ((moveProject s pid ns).2.isSome ↔
      ∃ p ∈ s.projects, p.id = pid ∧ p.status ≠ ns) ∧
    ((moveProject s pid ns).2 = none → (moveProject s pid ns).1 = s) ∧
    (∀ evs, (moveProject s pid ns).2 = some evs → evs.map Prod.fst = s.listeners) := by
  unfold moveProject
  cases hfind : s.projects.find? (fun prj => prj.id == pid) with
  | none =>
    rw [List.find?_eq_none] at hfind
    refine ⟨?_, fun _ => rfl, fun evs h => by cases h⟩
    simp only [Option.isSome_none, Bool.false_eq_true, false_iff]
    rintro ⟨p, hp, hid, -⟩
    exact hfind p hp (by simp [hid])
  | some p =>
    have hpmem : p ∈ s.projects := List.mem_of_find?_eq_some hfind
    have hpid : p.id = pid := by
      have := List.find?_some hfind
      simpa using this
    dsimp only
    by_cases hst : p.status = ns
    · rw [if_neg (by simp [hst])]
      refine ⟨?_, fun _ => rfl, fun evs h => by cases h⟩
      simp only [Option.isSome_none, Bool.false_eq_true, false_iff]
      rintro ⟨q, hq, hqid, hqs⟩
      have hqp : q = p :=
        List.inj_on_of_nodup_map hnd hq hpmem (by rw [hqid, hpid])
      rw [hqp] at hqs
      exact hqs hst
    · rw [if_pos hst]
      refine ⟨?_, ?_, ?_⟩
      · simp only [Option.isSome_some, true_iff]
        exact ⟨p, hpmem, hpid, hst⟩
      · intro h
        exact absurd h (by simp)
      · intro evs h
        injection h with h2
        rw [← h2]
        simp only [updateListeners, List.map_map]
        have hcomp :
            (Prod.fst ∘ fun fn : L => (fn, setStatusOfFirst s.projects pid ns)) = id := rfl
        rw [hcomp, List.map_id]

/-- Claim C3, witness: on a concrete store with one `Active` record and one
listener, moving it to `Finished` notifies, and the existence condition
holds. -/
theorem claim_C3_witness :
    ((moveProject
        { projects := [{ id := "a", title := "t", description := "d",
                         people := 1, status := ProjectStatus.Active }],
          listeners := [0] } "a" ProjectStatus.Finished).2.isSome ↔
      ∃ p ∈ ({ projects := [{ id := "a", title := "t", description := "d",
                              people := 1, status := ProjectStatus.Active }],
               listeners := [(0 : Nat)] } : ProjectState Nat).projects,
        p.id = "a" ∧ p.status ≠ ProjectStatus.Finished) := by
  have h := claim_C3 Nat
      { projects := [{ id := "a", title := "t", description := "d",
                       people := 1, status := ProjectStatus.Active }],
        listeners := [0] } "a" ProjectStatus.Finished (by decide)
  exact h.1

/-- Pointwise frame relation for `moveProject`: all fields except `status`
agree, and a status change is only possible on a record whose id is the
moved one. -/
def recordFrame (pid : String) (a b : Project) : Prop :=
  a.id = b.id ∧ a.title = b.title ∧ a.description = b.description ∧
  a.people = b.people ∧ (a.status ≠ b.status → a.id = pid)

theorem recordFrame_refl (pid : String) (a : Project) : recordFrame pid a a :=
  ⟨rfl, rfl, rfl, rfl, fun hc => absurd rfl hc⟩

theorem setStatusOfFirst_frame (l : List Project) (pid : String) (ns : ProjectStatus) :
    List.Forall₂ (recordFrame pid) l (setStatusOfFirst l pid ns) := by
  induction l with
  | nil => exact List.Forall₂.nil
  | cons p ps ih =>
    cases hb : p.id == pid with
    | true =>
      simp only [setStatusOfFirst, hb, if_true]
      exact List.Forall₂.cons
        ⟨rfl, rfl, rfl, rfl, fun _ => by simpa using hb⟩
        (List.forall₂_same.mpr (fun x _ => recordFrame_refl pid x))
    | false =>
      simp only [setStatusOfFirst, hb, Bool.false_eq_true, if_false]
      exact List.Forall₂.cons (recordFrame_refl pid p) ih

/-- Claim C8: `moveProject` preserves the length and order of the record
sequence, all creation-time fields of every record, and the listener list;
only the status of the record with the moved id can change. -/
theorem claim_C8 (L : Type) (s : ProjectState L) (pid : String) (ns : ProjectStatus) :
    (moveProject s pid ns).1.projects.length = s.projects.length ∧
    List.Forall₂ (recordFrame pid) s.projects (moveProject s pid ns).1.projects ∧
    (moveProject s pid ns).1.listeners = s.listeners := by
  have hrefl : List.Forall₂ (recordFrame pid) s.projects s.projects :=
    List.forall₂_same.mpr (fun x _ => recordFrame_refl pid x)
  unfold moveProject
  cases hfind : s.projects.find? (fun prj => prj.id == pid) with
  | none => exact ⟨rfl, hrefl, rfl⟩
  | some p =>
    dsimp only
    by_cases hst : p.status = ns
    · rw [if_neg (by simp [hst])]
      exact ⟨rfl, hrefl, rfl⟩
    · rw [if_pos hst]
      exact ⟨(setStatusOfFirst_frame s.projects pid ns).length_eq.symm,
        setStatusOfFirst_frame s.projects pid ns, rfl⟩

/-- Claim C8, witness: the frame property evaluated on a concrete store. -/
theorem claim_C8_witness :
    (moveProject
        ({ projects := [{ id := "a", title := "t", description := "d",
                          people := 1, status := ProjectStatus.Active }],
           listeners := [0] } : ProjectState Nat) "a" ProjectStatus.Finished).1.projects.length
      = 1 ∧
    List.Forall₂ (recordFrame "a")
      [{ id := "a", title := "t", description := "d",
         people := 1, status := ProjectStatus.Active }]
      (moveProject
        ({ projects := [{ id := "a", title := "t", description := "d",
                          people := 1, status := ProjectStatus.Active }],
           listeners := [0] } : ProjectState Nat) "a" ProjectStatus.Finished).1.projects := by
  have h := claim_C8 Nat
      { projects := [{ id := "a", title := "t", description := "d",
                       people := 1, status := ProjectStatus.Active }],
        listeners := [0] } "a" ProjectStatus.Finished
  exact ⟨h.1, h.2.1⟩

theorem find?_setStatusOfFirst (l : List Project) (pid : String) (ns : ProjectStatus)
    (p : Project) (hf : l.find? (fun q => q.id == pid) = some p) :
    (setStatusOfFirst l pid ns).find? (fun q => q.id == pid) =
      some { p with status := ns } := by
  induction l with
  | nil => cases hf
  | cons a as ih =>
    cases hab : a.id == pid with
    | true =>
      simp only [List.find?, hab] at hf
      injection hf with hap
      simp only [setStatusOfFirst, hab, if_true, List.find?]
      rw [hap]
    | false =>
      simp only [List.find?, hab] at hf
      simp only [setStatusOfFirst, hab, Bool.false_eq_true, if_false, List.find?]
      exact ih hf

/-- Claim C7, counterexample: the claim quantifies over every store state
containing a record with the given id.  If that record is already
`Finished`, the first `moveProject(id, Finished)` call is itself a no-op,
so the pair of calls triggers zero notifications, not exactly one. -/
theorem claim_C7_counterexample :
    (∃ p ∈ ({ projects := [{ id := "a", title := "t", description := "d",
                             people := 1, status := ProjectStatus.Finished }],
              listeners := [0] } : ProjectState Nat).projects, p.id = "a") ∧
    (moveProject
      ({ projects := [{ id := "a", title := "t", description := "d",
                        people := 1, status := ProjectStatus.Finished }],
         listeners := [0] } : ProjectState Nat) "a" ProjectStatus.Finished).2 = none ∧
    (moveProject
      (moveProject
        ({ projects := [{ id := "a", title := "t", description := "d",
                          people := 1, status := ProjectStatus.Finished }],
           listeners := [0] } : ProjectState Nat) "a" ProjectStatus.Finished).1
      "a" ProjectStatus.Finished).2 = none := by
  decide

/-- Claim C7, amended: if the first record with identifier `id` has a
status other than `Finished`, then of two successive
`moveProject(id, Finished)` calls the first notifies and the second is a
silent no-op that leaves the state unchanged. -/
theorem claim_C7 (L : Type) (s : ProjectState L) (pid : String) (p : Project)
    (hf : s.projects.find? (fun q => q.id == pid) = some p)
    (hs : p.status ≠ ProjectStatus.Finished) :
    (moveProject s pid ProjectStatus.Finished).2.isSome = true ∧
    (moveProject (moveProject s pid ProjectStatus.Finished).1
      pid ProjectStatus.Finished).2 = none ∧
    (moveProject (moveProject s pid ProjectStatus.Finished).1
      pid ProjectStatus.Finished).1 =
      (moveProject s pid ProjectStatus.Finished).1 := by
  have hfix := find?_setStatusOfFirst s.projects pid ProjectStatus.Finished p hf
  unfold moveProject
  rw [hf]
  dsimp only
  rw [if_pos hs]
  dsimp only
  rw [hfix]
  dsimp only
  rw [if_neg (by simp)]
  exact ⟨rfl, rfl, rfl⟩

/-- Claim C7, witness: the amended statement evaluated on a store holding
one `Active` record. -/
theorem claim_C7_witness :
    (moveProject
      ({ projects := [{ id := "a", title := "t", description := "d",
                        people := 1, status := ProjectStatus.Active }],
         listeners := [0] } : ProjectState Nat) "a" ProjectStatus.Finished).2.isSome = true ∧
    (moveProject
      (moveProject
        ({ projects := [{ id := "a", title := "t", description := "d",
                          people := 1, status := ProjectStatus.Active }],
           listeners := [0] } : ProjectState Nat) "a" ProjectStatus.Finished).1
      "a" ProjectStatus.Finished).2 = none := by
  have h := claim_C7 Nat
      { projects := [{ id := "a", title := "t", description := "d",
                       people := 1, status := ProjectStatus.Active }],
        listeners := [0] } "a"
      { id := "a", title := "t", description := "d",
        people := 1, status := ProjectStatus.Active }
      (by decide) (by decide)
  exact ⟨h.1, h.2.1⟩

theorem step_listeners_mem {L : Type} (s : ProjectState L) (op : Op L) (fn : L)
    (h : fn ∈ s.listeners) : fn ∈ (step s op).1.listeners := by
  cases op with
  | add i obj => exact h
  | move pid ns =>
    simp only [step]
    unfold moveProject
    cases s.projects.find? (fun prj => prj.id == pid) with
    | none => exact h
    | some p =>
      dsimp only
      by_cases hst : p.status = ns
      · rw [if_neg (by simp [hst])]
        exact h
      · rw [if_pos hst]
        exact h
  | listen g =>
    exact List.mem_append.mpr (Or.inl h)

theorem runOps_listeners_mem {L : Type} (ops : List (Op L)) (s : ProjectState L)
    (fn : L) (h : fn ∈ s.listeners) : fn ∈ (runOps s ops).listeners := by
  induction ops generalizing s with
  | nil => exact h
  | cons op ops ih => exact ih _ (step_listeners_mem s op fn h)

theorem mem_updateListeners {L : Type} (s : ProjectState L) (fn : L)
    (h : fn ∈ s.listeners) : (fn, s.projects) ∈ updateListeners s :=
  List.mem_map_of_mem _ h

theorem step_notifies_all {L : Type} (s : ProjectState L) (op : Op L)
    (evs : List (L × List Project)) (h : (step s op).2 = some evs) (fn : L)
    (hfn : fn ∈ s.listeners) : ∃ snap, (fn, snap) ∈ evs := by
  cases op with
  | add i obj =>
    injection h with h2
    subst h2
    exact ⟨_, mem_updateListeners _ fn hfn⟩
  | move pid ns =>
    simp only [step] at h
    unfold moveProject at h
    revert h
    cases s.projects.find? (fun prj => prj.id == pid) with
    | none => intro h; cases h
    | some p =>
      dsimp only
      by_cases hst : p.status = ns
      · rw [if_neg (by simp [hst])]
        intro h; cases h
      · rw [if_pos hst]
        intro h
        injection h with h2
        subst h2
        exact ⟨_, mem_updateListeners _ fn hfn⟩
  | listen g => cases h

/-- Claim C9: `addListener` invokes nothing and leaves the project
sequence untouched, only appending the callback to the listener list; and
after any further sequence of calls, every notification round that happens
includes an event for the registered callback. -/
theorem claim_C9 (L : Type) (s : ProjectState L) (fn : L) (ops : List (Op L)) :
    (addListener s fn).2 = none ∧
    (addListener s fn).1.projects = s.projects ∧
    (addListener s fn).1.listeners = s.listeners ++ [fn] ∧
    (∀ op evs, (step (runOps (addListener s fn).1 ops) op).2 = some evs →
      ∃ snap, (fn, snap) ∈ evs) := by
  refine ⟨rfl, rfl, rfl, ?_⟩
  intro op evs h
  have hmem : fn ∈ (runOps (addListener s fn).1 ops).listeners :=
    runOps_listeners_mem ops (addListener s fn).1 fn
      (List.mem_append.mpr (Or.inr (List.mem_singleton.mpr rfl)))
  exact step_notifies_all _ op evs h fn hmem

/-- Claim C9, witness: a listener registered on the empty store is notified
by the next `addProject` call. -/
theorem claim_C9_witness :
    (addListener (initialState Nat) 5).2 = none ∧
    (addListener (initialState Nat) 5).1.projects = [] ∧
    ∃ snap, ((5 : Nat), snap) ∈
      [((5 : Nat), [mkProject "0.2" { title := "t", description := "d", people := 1 }])] := by
  have h := claim_C9 Nat (initialState Nat) 5 []
  exact ⟨h.1, h.2.1,
    h.2.2.2 (Op.add "0.2" { title := "t", description := "d", people := 1 }) _ rfl⟩

end DragDrop

namespace DragDropHeap

open DragDrop (Project ProjectStatus UserInput mkProject)

/-- Reference-level state of the store.  Record objects live in `objs` and
array objects in `arrs`; positions in those lists are the references.  The
private `projects` field of the store is the array object `projectsRef`,
exactly as in JS where `this.projects` is a reference to an array of
references to `Project` objects.  The spread `[...this.projects]` copies
the array object but not the record objects, which this embedding makes
observable. -/
structure HState (L : Type) where
  objs : List Project
  arrs : List (List Nat)
  projectsRef : Nat
  listeners : List L
  deriving DecidableEq, Repr

/-- Placeholder for dereferencing a dangling record reference. -/
def defaultProject : Project :=
  { id := "", title := "", description := "", people := 0,
    status := ProjectStatus.Active }

/-- Dereference an array object. -/
def getArr {L : Type} (st : HState L) (a : Nat) : List Nat := st.arrs.getD a []

/-- Dereference a record object. -/
def getObj {L : Type} (st : HState L) (r : Nat) : Project :=
  st.objs.getD r defaultProject

/-- The contents of the array object `this.projects`. -/
def storeArray {L : Type} (st : HState L) : List Nat := getArr st st.projectsRef

/-- The record values currently held by the store, in order: the internal
state an observer of the store can see. -/
def storeView {L : Type} (st : HState L) : List Project :=
  (storeArray st).map (getObj st)

/-- The record values a snapshot array currently denotes. -/
def snapshotView {L : Type} (st : HState L) (a : Nat) : List Project :=
  (getArr st a).map (getObj st)

/-- The loop body of `updateListeners`: for each listener, in order,
evaluate `[...this.projects]` — allocate a fresh array object holding a
copy of the store array — and invoke the listener with a reference to it.
The event `(fn, a)` records that listener `fn` received array reference
`a`. -/
def notifyAll {L : Type} : HState L → List L → HState L × List (L × Nat)
  | st, [] => (st, [])
  | st, fn :: rest =>
    let contents := storeArray st
    let a := st.arrs.length
    let st' : HState L := { st with arrs := st.arrs ++ [contents] }
    let r := notifyAll st' rest
    (r.1, (fn, a) :: r.2)

/-- Embedding of `updateListeners` at the reference level. -/
def updateListeners {L : Type} (st : HState L) : HState L × List (L × Nat) :=
  notifyAll st st.listeners

/-- The state built by the private constructor: an empty `this.projects`
array allocated at reference 0 and no record objects. -/
def initialHState (L : Type) : HState L :=
  { objs := [], arrs := [[]], projectsRef := 0, listeners := [] }

/-- Embedding of `addListener` at the reference level. -/
def addListener {L : Type} (st : HState L) (fn : L) : HState L :=
  { st with listeners := st.listeners ++ [fn] }

/-- Embedding of `addProject` at the reference level: allocate the new record object,
push its reference onto `this.projects`, and run `updateListeners`. -/
def addProject {L : Type} (st : HState L) (id : String) (obj : UserInput) :
    HState L × List (L × Nat) :=
  let r := st.objs.length
  let st1 : HState L := { st with objs := st.objs ++ [mkProject id obj] }
  let st2 : HState L :=
    { st1 with arrs := st1.arrs.set st1.projectsRef (storeArray st1 ++ [r]) }
  updateListeners st2

/-- A mutation a listener can apply to a record it received inside a
snapshot: assign to the `status` field of the record object `r`, e.g.
`project.status = ns`. -/
def setRecStatus {L : Type} (st : HState L) (r : Nat) (ns : ProjectStatus) : HState L :=
  { st with objs := st.objs.set r { st.objs.getD r defaultProject with status := ns } }

/-- A mutation a listener can apply to a snapshot array object itself:
overwrite its contents (covers element assignment, push, splice and
clearing). -/
def setArr {L : Type} (st : HState L) (a : Nat) (contents : List Nat) : HState L :=
  { st with arrs := st.arrs.set a contents }

theorem getD_set_ne {α : Type} (l : List α) (i j : Nat) (hij : i ≠ j) (v d : α) :
    (l.set i v).getD j d = l.getD j d := by
  simp [List.getD_eq_getElem?_getD, List.getElem?_set_ne hij]

/-- Complete characterization of the notification loop, assuming the store
array reference is live: the final heap extends the initial one with one
fresh copy of the store array per listener, and listener `k` (0-based, in
registration order) receives the reference `st.arrs.length + k`. -/
theorem notifyAll_spec {L : Type} (fns : List L) (st : HState L)
    (hwf : st.projectsRef < st.arrs.length) :
    (notifyAll st fns).1 =
      { st with arrs := st.arrs ++ List.replicate fns.length (storeArray st) } ∧
    (notifyAll st fns).2 = fns.zip (List.range' st.arrs.length fns.length) := by
  induction fns generalizing st with
  | nil =>
    constructor
    · show st = _
      simp
    · rfl
  | cons fn rest ih =>
    have hwf' : st.projectsRef < st.arrs.length + 1 := Nat.lt_succ_of_lt hwf
    have hsa :
        storeArray ({ st with arrs := st.arrs ++ [storeArray st] } : HState L) =
          storeArray st := by
      simp only [storeArray, getArr, List.getD_eq_getElem?_getD]
      rw [List.getElem?_append_left hwf]
    have h := ih { st with arrs := st.arrs ++ [storeArray st] } (by simpa using hwf')
    constructor
    · show (notifyAll { st with arrs := st.arrs ++ [storeArray st] } rest).1 = _
      rw [h.1, hsa]
      simp [List.replicate_succ]
    · show (fn, st.arrs.length) ::
        (notifyAll { st with arrs := st.arrs ++ [storeArray st] } rest).2 = _
      rw [h.2]
      have hlen : ({ st with arrs := st.arrs ++ [storeArray st] } : HState L).arrs.length
          = st.arrs.length + 1 := by simp
      rw [hlen, List.length_cons, List.range'_succ]
      rfl

/-- A record with status `Active`, used by the concrete heap examples. -/
def pActive : Project :=
  { id := "a", title := "t", description := "d", people := 1,
    status := ProjectStatus.Active }

/-- A heap store holding one `Active` record and two listeners 1 and 2. -/
def twoListenerState : HState Nat :=
  { objs := [pActive], arrs := [[0]], projectsRef := 0, listeners := [1, 2] }

/-- A heap store with an empty project array and one listener 7. -/
def oneListenerEmpty : HState Nat :=
  { objs := [], arrs := [[]], projectsRef := 0, listeners := [7] }

/-- A concrete user input for the heap examples. -/
def shedInput : UserInput :=
  { title := "t", description := "d", people := 3 }

/-- Claim C5, counterexample: with two registered listeners the loop in
`updateListeners` evaluates `[...this.projects]` once per listener, so two
snapshot arrays are allocated (the array heap grows from 1 to 3, not to 2)
and the listeners receive the distinct references 1 and 2.  No single
snapshot is shared. -/
theorem claim_C5_counterexample :
    (updateListeners twoListenerState).2 = [(1, 1), (2, 2)] ∧
    (updateListeners twoListenerState).1.arrs.length = 3 ∧
    (3 : Nat) ≠ 1 + 1 := by
  decide

/-- Claim C5, amended: on every notification the store invokes every
registered listener synchronously in registration order, passing each one
a freshly allocated snapshot array — one copy per listener, with pairwise
distinct references — whose contents are the current ordered sequence; the
store array and the record objects are untouched. -/
theorem claim_C5 (L : Type) (st : HState L) (hwf : st.projectsRef < st.arrs.length) :
    (updateListeners st).2.map Prod.fst = st.listeners ∧
    (updateListeners st).2.map Prod.snd =
      List.range' st.arrs.length st.listeners.length ∧
    ((updateListeners st).2.map Prod.snd).Nodup ∧
    (updateListeners st).1.arrs.length = st.arrs.length + st.listeners.length ∧
    (∀ ev ∈ (updateListeners st).2,
      getArr (updateListeners st).1 ev.2 = storeArray st) ∧
    storeArray (updateListeners st).1 = storeArray st ∧
    (updateListeners st).1.objs = st.objs := by
  obtain ⟨h1, h2⟩ := notifyAll_spec st.listeners st hwf
  unfold updateListeners
  rw [h1, h2]
  refine ⟨List.map_fst_zip _ _ (by simp), List.map_snd_zip _ _ (by simp), ?_, by simp,
    ?_, ?_, rfl⟩
  · rw [List.map_snd_zip _ _ (by simp)]
    exact List.nodup_range' _ _
  · intro ev hev
    obtain ⟨i, hi, hieq⟩ := List.mem_range'.mp (List.of_mem_zip hev).2
    rw [Nat.one_mul] at hieq
    show (st.arrs ++ List.replicate st.listeners.length (storeArray st)).getD ev.2 []
        = storeArray st
    rw [List.getD_eq_getElem?_getD, hieq, List.getElem?_append_right (by omega)]
    have hsub : st.arrs.length + i - st.arrs.length = i := by omega
    rw [hsub, List.getElem?_replicate_of_lt hi]
    rfl
  · show (st.arrs ++ List.replicate st.listeners.length (storeArray st)).getD
        st.projectsRef [] = storeArray st
    rw [List.getD_eq_getElem?_getD, List.getElem?_append_left hwf]
    simp [storeArray, getArr, List.getD_eq_getElem?_getD]

/-- Claim C5, witness: the amended statement evaluated on a store with one
record and two listeners. -/
theorem claim_C5_witness :
    (updateListeners twoListenerState).2.map Prod.fst = twoListenerState.listeners ∧
    (updateListeners twoListenerState).1.arrs.length = 1 + 2 := by
  have h := claim_C5 Nat twoListenerState (by decide)
  exact ⟨h.1, h.2.2.2.1⟩

/-- Claim C2, counterexample: `[...this.projects]` is a shallow copy, so a
snapshot array holds references to the very record objects the store
holds.  After one `addProject`, the single listener receives array
reference 1 whose sole element is record reference 0; assigning
`status = Finished` to that record through the snapshot changes the
internal state of the store itself. -/
theorem claim_C2_counterexample :
    (addProject oneListenerEmpty "0.5" shedInput).2 = [(7, 1)] ∧
    getArr (addProject oneListenerEmpty "0.5" shedInput).1 1 = [0] ∧
    storeView (setRecStatus (addProject oneListenerEmpty "0.5" shedInput).1
        0 ProjectStatus.Finished) ≠
      storeView (addProject oneListenerEmpty "0.5" shedInput).1 := by
  decide

/-- Claim C2, amended: snapshots are independent of the store and of each
other at the array level only: overwriting the contents of a received
snapshot array leaves the store array, the record objects, and every other
snapshot array unchanged.  (Record objects themselves are shared by
reference, so mutating a record through a snapshot is visible in the
store, as the counterexample shows.) -/
theorem claim_C2 (L : Type) (st : HState L) (hwf : st.projectsRef < st.arrs.length) :
    ∀ ev ∈ (updateListeners st).2, ∀ contents,
      storeArray (setArr (updateListeners st).1 ev.2 contents) =
        storeArray (updateListeners st).1 ∧
      (setArr (updateListeners st).1 ev.2 contents).objs =
        (updateListeners st).1.objs ∧
      ∀ ev2 ∈ (updateListeners st).2, ev2.2 ≠ ev.2 →
        getArr (setArr (updateListeners st).1 ev.2 contents) ev2.2 =
          getArr (updateListeners st).1 ev2.2 := by
  obtain ⟨h1, h2⟩ := notifyAll_spec st.listeners st hwf
  unfold updateListeners
  rw [h1, h2]
  intro ev hev contents
  obtain ⟨i, hi, hieq⟩ := List.mem_range'.mp (List.of_mem_zip hev).2
  rw [Nat.one_mul] at hieq
  have hne : ev.2 ≠ st.projectsRef := by omega
  refine ⟨?_, rfl, ?_⟩
  · exact getD_set_ne _ ev.2 st.projectsRef hne contents []
  · intro ev2 hev2 hne2
    exact getD_set_ne _ ev.2 ev2.2 (Ne.symm hne2) contents []

/-- Claim C2, witness: the amended statement evaluated after a
notification with two listeners, overwriting the first snapshot. -/
theorem claim_C2_witness :
    storeArray (setArr (updateListeners twoListenerState).1 1 []) =
      storeArray (updateListeners twoListenerState).1 := by
  have h := claim_C2 Nat twoListenerState (by decide) (1, 1) (by decide) []
  exact h.1

end DragDropHeap

namespace Validation

/-- JS `String.prototype.trim` on the character list: drop whitespace from
both ends. -/
def trimChars (l : List Char) : List Char :=
  ((l.dropWhile Char.isWhitespace).reverse.dropWhile Char.isWhitespace).reverse

/-- JS `value.trim()` for strings. -/
def jsTrim (s : String) : String := ⟨trimChars s.data⟩

/-- A JS `string | number` value.  `num none` models `NaN` (what `+value`
yields on a non-numeric string); a finite JS number is modelled as a
rational. -/
inductive JSVal where
  | str (s : String)
  | num (v : Option ℚ)
  deriving DecidableEq, Repr

/-- Embedding of `interface Validate` from the source: the `value` plus the optional
constraint properties, with `required` absent modelled as `false` (both
`undefined` and `false` are falsy in the `if (input.required)` test) and
the optional numeric properties as `Option` (the source tests
`!= null`). -/
structure Validate where
  value : JSVal
  required : Bool := false
  minLength : Option ℕ := none
  maxLength : Option ℕ := none
  min : Option ℚ := none
  max : Option ℚ := none

/-- The test `input.value.toString().trim().length !== 0`.  For a string
value this asks whether the trimmed string is nonempty.  `toString` on any
JS number — `NaN` included — yields a nonempty string without surrounding
whitespace (for example `"NaN"`, `"1.5"`), so for a number value the test
is always true. -/
def requiredCheck : JSVal → Bool
  | .str s => !(jsTrim s).isEmpty
  | .num _ => true

/-- Embedding of `validate` from the source: a conjunction of the
applicable checks, in source order.  `minLength`/`maxLength` apply only
when the value is a string (the `typeof` test in the source), `min`/`max`
only when it is a number; a comparison against `NaN` is false. -/
def validate (input : Validate) : Bool :=
  let isValid := true
  let isValid := if input.required then isValid && requiredCheck input.value else isValid
  let isValid :=
    match input.minLength, input.value with
    | some ml, .str s => isValid && decide (ml ≤ (jsTrim s).length)
    | _, _ => isValid
  let isValid :=
    match input.maxLength, input.value with
    | some ml, .str s => isValid && decide ((jsTrim s).length ≤ ml)
    | _, _ => isValid
  let isValid :=
    match input.min, input.value with
    | some m, .num v =>
      isValid && (match v with | some q => decide (m ≤ q) | none => false)
    | _, _ => isValid
  let isValid :=
    match input.max, input.value with
    | some m, .num v =>
      isValid && (match v with | some q => decide (q ≤ m) | none => false)
    | _, _ => isValid
  isValid

/-- Embedding of `gatherUserInput` from the source: build the three validators, return
`none` (and log) when any fails, otherwise the tuple
`[title, description, +people]`.  The `people` argument is the already
coerced `+this.peopleInputEl.value` (`none` = `NaN`). -/
def gatherUserInput (title description : String) (people : Option ℚ) :
    Option (String × String × Option ℚ) :=
  let titleValidator : Validate := { value := .str title, required := true }
  let descValidator : Validate :=
    { value := .str description, required := true, minLength := some 5 }
  let peopleValidator : Validate :=
    { value := .num people, required := true, min := some 1, max := some 5 }
  if !validate titleValidator || !validate descValidator || !validate peopleValidator then
    none
  else
    some (title, description, people)

/-- The embedded `submitHandler` calls `projectState.addProject` exactly when
`gatherUserInput` returned an array (`Array.isArray(userInput)`). -/
def submitCallsAddProject (title description : String) (people : Option ℚ) : Bool :=
  (gatherUserInput title description people).isSome

theorem validate_title (t : String) :
    validate { value := JSVal.str t, required := true } = !(jsTrim t).isEmpty := rfl

theorem validate_desc (d : String) :
    validate { value := JSVal.str d, required := true, minLength := some 5 } =
      (!(jsTrim d).isEmpty && decide (5 ≤ (jsTrim d).length)) := rfl

theorem validate_people (p : Option ℚ) :
    validate { value := JSVal.num p, required := true, min := some 1, max := some 5 } =
      ((match p with | some q => decide ((1 : ℚ) ≤ q) | none => false) &&
       (match p with | some q => decide (q ≤ (5 : ℚ)) | none => false)) := rfl

theorem gather_isSome (t d : String) (p : Option ℚ) :
    (gatherUserInput t d p).isSome =
      (validate { value := JSVal.str t, required := true } &&
       validate { value := JSVal.str d, required := true, minLength := some 5 } &&
       validate { value := JSVal.num p, required := true, min := some 1, max := some 5 }) := by
  unfold gatherUserInput
  dsimp only
  cases hA : validate { value := JSVal.str t, required := true } <;>
    cases hB : validate { value := JSVal.str d, required := true, minLength := some 5 } <;>
      cases hC : validate { value := JSVal.num p, required := true, min := some 1, max := some 5 } <;>
        simp [hA, hB, hC]

/-- Claim C6, counterexample: `validate` never tests integrality — the
`min`/`max` checks are plain numeric comparisons.  With title `"Task"`,
description `"descr"` and people-count `3/2` (what `+` yields on the raw
field text `"1.5"`), the handler calls `addProject` even though `3/2` is
not an integer, contradicting the claimed characterization of the
validation rules. -/
theorem claim_C6_counterexample :
    submitCallsAddProject "Task" "descr" (some (mkRat 3 2)) = true ∧
    ¬ ∃ n : ℤ, (mkRat 3 2 : ℚ) = (n : ℚ) := by
  constructor
  · decide
  · rintro ⟨n, hn⟩
    have hd : (mkRat 3 2).den = 1 := by rw [hn]; exact Rat.den_intCast n
    exact absurd hd (by decide)

/-- Claim C6, amended: the submission handler calls `addProject` exactly
when the trimmed title is nonempty, the trimmed description is nonempty
with length at least 5, and the coerced people-count is a number (not
`NaN`) between 1 and 5 inclusive — integrality of the people-count is not
required. -/
theorem claim_C6 (title description : String) (people : Option ℚ) :
    submitCallsAddProject title description people = true ↔
      (jsTrim title ≠ "" ∧ jsTrim description ≠ "" ∧
        5 ≤ (jsTrim description).length ∧
        ∃ q, people = some q ∧ 1 ≤ q ∧ q ≤ 5) := by
  rw [show submitCallsAddProject title description people =
      (gatherUserInput title description people).isSome from rfl]
  rw [gather_isSome, validate_title, validate_desc, validate_people]
  cases people with
  | none => simp
  | some q => simp [Bool.eq_false_iff, ne_eq, String.isEmpty_iff, and_assoc]

theorem dropWhile_eq_nil_of_forall {α : Type} (p : α → Bool) (l : List α)
    (h : ∀ c ∈ l, p c = true) : l.dropWhile p = [] := by
  induction l with
  | nil => rfl
  | cons a as ih =>
    rw [List.dropWhile_cons, if_pos (h a (List.mem_cons_self a as))]
    exact ih (fun c hc => h c (List.mem_cons_of_mem a hc))

theorem jsTrim_eq_empty_of_whitespace (s : String)
    (h : ∀ c ∈ s.data, c.isWhitespace) : jsTrim s = "" := by
  unfold jsTrim trimChars
  rw [dropWhile_eq_nil_of_forall Char.isWhitespace s.data h]
  rfl

/-- Claim C10: the `required` check tests the length of the trimmed
string, so any value made only of whitespace characters (the empty string
included) fails `validate` with `required = true`, and the form therefore
rejects a whitespace-only title or description. -/
theorem claim_C10 (s : String) (hws : ∀ c ∈ s.data, c.isWhitespace) :
    validate { value := JSVal.str s, required := true } = false ∧
    (∀ d p, gatherUserInput s d p = none) ∧
    (∀ t p, gatherUserInput t s p = none) := by
  have htrim := jsTrim_eq_empty_of_whitespace s hws
  have hval : validate { value := JSVal.str s, required := true } = false := by
    rw [validate_title, htrim]
    rfl
  have hdesc : validate { value := JSVal.str s, required := true, minLength := some 5 }
      = false := by
    rw [validate_desc, htrim]
    rfl
  refine ⟨hval, ?_, ?_⟩
  · intro d p
    unfold gatherUserInput
    dsimp only
    rw [hval]
    simp
  · intro t p
    unfold gatherUserInput
    dsimp only
    rw [hdesc]
    simp

/-- Claim C10, witness: a single space as title, and as description, is
rejected. -/
theorem claim_C10_witness :
    validate { value := JSVal.str " ", required := true } = false ∧
    gatherUserInput " " "descr" (some 3) = none ∧
    gatherUserInput "Task" " " (some 3) = none := by
  have h := claim_C10 " " (by decide)
  exact ⟨h.1, h.2.1 "descr" (some 3), h.2.2 "Task" (some 3)⟩

end Validation
